import Mathlib

/-!
# reactabular-easy: column reordering and the row pipeline

A shallow embedding of `packages/reactabular-easy/src/index.jsx`
(`move`, `moveLabels`, `EasyTable.onMove`, the row computation of
`EasyTable.render`) and of the row computation of
`docs/transforms/SortAndSearchTable.jsx`.

Modelling choices

* A JavaScript array is a `List`; `slice` and `concat` build new arrays, so
  they are `List.take`, `List.drop` and `++`.
* A column descriptor is a value of type `Column`. Its `props` field is a
  reference into a heap of props objects, because `onMove` assigns to
  `column.props.className` and that write is visible through every array
  that holds the column.
* The value `undefined` read by `data[i]` past the end of an array is the
  `default` element of the element type.
* `findIndex` answers `-1` when nothing matches, so it returns an `Int`.
* The transforms of the `reactabular` library (`resolve`, `search`,
  `highlight`, `sort`) are not part of these sources; they are parameters.
-/

namespace Reactabular

/-! ## Data model -/

/-- Reference to a props object on the heap. -/
abbrev Ref := Nat

/-- The `header` object of a column: only `label` is read by the code modelled here;
`label = none` is a header without a label. -/
structure Header where
  label : Option String
  draggable : Bool
  deriving DecidableEq, Repr, Inhabited

/-- The `cell` object of a column. -/
structure Cell where
  property : Option String
  deriving DecidableEq, Repr, Inhabited

/-- The `props` object of a column: `className` and the width kept in `style`. -/
structure Props where
  className : String
  width : Option Nat
  deriving DecidableEq, Repr, Inhabited

/-- A column descriptor. `header`, `cell` and `props` may each be missing;
`props` holds a reference to a props object. -/
structure Column where
  header : Option Header
  cell : Option Cell
  props : Option Ref
  deriving DecidableEq, Repr, Inhabited

/-- The argument of `moveLabels` and `onMove`: `{ sourceLabel, targetLabel }`. -/
structure MoveRequest where
  sourceLabel : String
  targetLabel : String
  deriving DecidableEq, Repr

/-- The object returned by `moveLabels`: `{ sourceIndex, targetIndex, columns }`. -/
structure MovedColumns where
  sourceIndex : Nat
  targetIndex : Nat
  columns : List Column
  deriving DecidableEq, Repr

/-- The heap of props objects. -/
abbrev PropsHeap := Ref → Option Props

/-- The part of the component state that `onMove` reads and writes:
`this.state.columns`, together with the heap its columns point into. -/
structure EasyTableState where
  columns : List Column
  heap : PropsHeap

/-! ## Column reordering -/

/-- The function `move(data, sourceIndex, targetIndex)` of index.jsx:
detach the item at `sourceIndex`, then attach it at `targetIndex` of the
array that is left. -/
def move {α : Type} [Inhabited α] (data : List α) (sourceIndex targetIndex : Nat) : List α :=
  let sourceItem := data.getD sourceIndex default
  -- 1. detach
  let ret := data.take sourceIndex ++ data.drop (sourceIndex + 1)
  -- 2. attach
  ret.take targetIndex ++ [sourceItem] ++ ret.drop targetIndex

/-- The predicate lodash builds from the pattern `{ header: { label } }`:
the column has a header whose label is the given one. -/
def matchesHeaderLabel (label : String) (column : Column) : Bool :=
  match column.header with
  | some header => decide (header.label = some label)
  | none => false

/-- The loop of lodash `findIndex`: the index of the first element that
satisfies the predicate, counting from `index`, or `-1`. -/
def baseFindIndex {α : Type} (predicate : α → Bool) : List α → Nat → Int
  | [], _ => -1
  | x :: xs, index => if predicate x then (index : Int) else baseFindIndex predicate xs (index + 1)

/-- The call `findIndex(columns, { header: { label } })`. -/
def findIndex (columns : List Column) (label : String) : Int :=
  baseFindIndex (matchesHeaderLabel label) columns 0

/-- The function `moveLabels(columns, { sourceLabel, targetLabel })` of index.jsx;
`none` is the `null` result. -/
def moveLabels (columns : List Column) (labels : MoveRequest) : Option MovedColumns :=
  let sourceIndex := findIndex columns labels.sourceLabel
  if sourceIndex < 0 then none
  else
    let targetIndex := findIndex columns labels.targetLabel
    if targetIndex < 0 then none
    else
      some
        { sourceIndex := sourceIndex.toNat
          targetIndex := targetIndex.toNat
          columns := move columns sourceIndex.toNat targetIndex.toNat }

/-- Reading `column.props.className`: `none` when `props` is missing
(a TypeError in the source). -/
def readClassName (heap : PropsHeap) (column : Column) : Option String :=
  match column.props with
  | some ref => (heap ref).map Props.className
  | none => none

/-- The assignment `column.props.className = value` on the props object at `ref`. -/
def writeClassName (heap : PropsHeap) (ref : Ref) (value : String) : PropsHeap :=
  fun r => if r = ref then (heap r).map (fun props => { props with className := value }) else heap r

/-- The method `EasyTable.onMove(labels)`. The result `none` stands for the
TypeError raised when `source.props` or `target.props` is missing; it is raised
before any assignment, so the state is then left as it was. -/
def onMove (state : EasyTableState) (labels : MoveRequest) : Option EasyTableState :=
  match moveLabels state.columns labels with
  | none => some state
  | some movedColumns =>
    -- Retain widths to avoid flashing while drag and dropping.
    match movedColumns.columns[movedColumns.sourceIndex]?,
        movedColumns.columns[movedColumns.targetIndex]? with
    | some source, some target =>
      match source.props, target.props with
      | some sourceProps, some targetProps =>
        match readClassName state.heap source, readClassName state.heap target with
        | some tmpClassName, some targetClassName =>
          let heap1 := writeClassName state.heap sourceProps targetClassName
          let heap2 := writeClassName heap1 targetProps tmpClassName
          some { columns := movedColumns.columns, heap := heap2 }
        | _, _ => none
      | _, _ => none
    | _, _ => none

/-! ## Row pipeline -/

/-- The transforms of the `reactabular` library used by `render`, each already
applied to its options object. -/
structure Transforms (Row Query Sorting : Type) where
  resolve : List Column → List Row → List Row
  multipleColumns : List Column → Query → List Row → List Row
  highlighter : List Column → Query → List Row → List Row
  sorter : List Column → Sorting → List Row → List Row

/-- The function `compose` of redux: `compose(f, g, h)` is `x => f(g(h(x)))`,
built as `funcs.reduce((a, b) => (...args) => a(b(...args)))`. -/
def compose {β : Type} : List (β → β) → β → β
  | [] => fun arg => arg
  | f :: fs => fs.foldl (fun a b => fun arg => a (b arg)) f

/-- The constant `rows` computed in `EasyTable.render`. -/
def renderRows {Row Query Sorting : Type} (T : Transforms Row Query Sorting)
    (columns : List Column) (sortingColumns : Sorting) (query : Query)
    (rows : List Row) : List Row :=
  compose
    [ T.sorter columns sortingColumns,
      T.highlighter columns query,
      T.multipleColumns columns query,
      T.resolve columns ]
    rows

/-- The constant `sortedData` computed in `SortAndSearchTable.render`. -/
def sortAndSearchRows {Row Query Sorting : Type} (T : Transforms Row Query Sorting)
    (columns : List Column) (sortingColumns : Sorting) (query : Query)
    (data : List Row) : List Row :=
  let searchedData := T.multipleColumns columns query data
  let sortedData := T.sorter columns sortingColumns searchedData
  sortedData

/-! ## Sample data -/

/-- A column with a header label, a cell and a props object at `ref`. -/
def sampleColumn (label : String) (ref : Ref) (draggable : Bool) : Column :=
  { header := some { label := some label, draggable := draggable }
    cell := some { property := some label }
    props := some ref }

/-- Three columns labelled a, b, c with props objects 0, 1, 2; the middle one is not
draggable, so its header cell gets no `onMove` and a drag of a passes over it. -/
def sampleColumns : List Column :=
  [sampleColumn "a" 0 true, sampleColumn "b" 1 false, sampleColumn "c" 2 true]

/-- The heap after `bindColumns`: props object `i` carries the class name of position `i`. -/
def sampleHeap : PropsHeap := fun ref =>
  if ref = 0 then some { className := "column-0", width := some 100 }
  else if ref = 1 then some { className := "column-1", width := some 200 }
  else if ref = 2 then some { className := "column-2", width := some 300 }
  else none

/-- A state with the three sample columns. -/
def sampleState : EasyTableState := { columns := sampleColumns, heap := sampleHeap }

/-- Class names read position by position; a missing props object reads as `none`. -/
def classNamesOf (heap : PropsHeap) (columns : List Column) : List (Option String) :=
  columns.map (readClassName heap)

/-! ## Vocabulary of the statements -/

/-- Reading `column.header.label`; `none` when the header or its label is missing. -/
def headerLabel (column : Column) : Option String :=
  match column.header with
  | some header => header.label
  | none => none

/-- The index `i` is the first position of `columns` whose header label is `label`. -/
def IsFirstMatch (columns : List Column) (label : String) (i : Nat) : Prop :=
  (∃ c, columns[i]? = some c ∧ headerLabel c = some label) ∧
    ∀ j, j < i → ∀ c, columns[j]? = some c → headerLabel c ≠ some label

/-- Every column of the state has a props object on the heap, as after `bindColumns`
for columns that have a header and a cell. -/
def propsAllocated (state : EasyTableState) : Bool :=
  state.columns.all fun column => (readClassName state.heap column).isSome

/-- Four columns in which the labels a and b each occur twice. -/
def duplicateColumns : List Column :=
  [sampleColumn "b" 0 true, sampleColumn "a" 1 true, sampleColumn "b" 2 true,
    sampleColumn "a" 3 true]

/-- A column as `bindColumns` leaves it when it has no cell: returned as it came,
here without a props object. -/
def bareColumn (label : String) : Column :=
  { header := some { label := some label, draggable := false }
    cell := none
    props := none }

/-- A state in which the third column has no props object. -/
def mixedState : EasyTableState :=
  { columns := [sampleColumn "a" 0 true, sampleColumn "b" 1 true, bareColumn "c"]
    heap := sampleHeap }

/-- The two columns that `onMove` reads at sourceIndex and targetIndex of the moved
sequence both have a props object on the heap. -/
def MovedPropsPresent (heap : PropsHeap) (moved : MovedColumns) : Prop :=
  ∃ source target,
    moved.columns[moved.sourceIndex]? = some source ∧
    moved.columns[moved.targetIndex]? = some target ∧
    (readClassName heap source).isSome = true ∧
    (readClassName heap target).isSome = true

/-- The letters used in the comment of `move`. -/
def letters : List String := ["a", "b", "c", "d", "e"]

/-! ## Lemmas on `move` -/

theorem insertIdx_eq_take_drop {α : Type} (x : α) :
    ∀ (n : Nat) (l : List α), n ≤ l.length → l.insertIdx n x = l.take n ++ x :: l.drop n
  | 0, l, _ => by simp
  | n + 1, [], h => by simp at h
  | n + 1, a :: l, h => by
      simp only [List.insertIdx_succ_cons, List.take_succ_cons, List.drop_succ_cons,
        List.cons_append]
      rw [insertIdx_eq_take_drop x n l (by simpa using h)]

theorem move_eq_insertIdx {α : Type} [Inhabited α] (data : List α) (s t : Nat)
    (hs : s < data.length) (ht : t < data.length) :
    move data s t = (data.eraseIdx s).insertIdx t (data[s]) := by
  have hlen : t ≤ (data.eraseIdx s).length := by
    rw [List.length_eraseIdx_of_lt hs]; omega
  rw [insertIdx_eq_take_drop _ _ _ hlen, List.eraseIdx_eq_take_drop_succ]
  simp [move, List.getD_eq_getElem?_getD, List.getElem?_eq_getElem hs]

theorem getElem?_move {α : Type} [Inhabited α] (data : List α) (s t i : Nat)
    (hs : s < data.length) (ht : t < data.length) :
    (move data s t)[i]? =
      if i = t then data[s]?
      else if i < t then (if i < s then data[i]? else data[i + 1]?)
      else (if i ≤ s then data[i - 1]? else data[i]?) := by
  unfold move
  simp only [List.getD_eq_getElem?_getD, List.getElem?_eq_getElem hs, Option.getD_some]
  simp only [List.getElem?_append, List.getElem?_take, List.getElem?_drop, List.length_take,
    List.length_append, List.length_drop, List.length_singleton, List.getElem?_cons,
    List.getElem?_nil]
  split_ifs <;> first | rfl | omega | (congr 1; omega)

theorem length_move {α : Type} [Inhabited α] (data : List α) (s t : Nat)
    (hs : s < data.length) (ht : t < data.length) :
    (move data s t).length = data.length := by
  rw [move_eq_insertIdx data s t hs ht, List.length_insertIdx, List.length_eraseIdx_of_lt hs]
  · omega
  · rw [List.length_eraseIdx_of_lt hs]; omega

theorem insertIdx_eraseIdx_self {α : Type} :
    ∀ (l : List α) (s : Nat) (hs : s < l.length), (l.eraseIdx s).insertIdx s (l[s]) = l
  | a :: l, 0, _ => by simp
  | a :: l, s + 1, hs => by
      simp only [List.eraseIdx_cons_succ, List.insertIdx_succ_cons, List.getElem_cons_succ]
      rw [insertIdx_eraseIdx_self l s (by simpa using hs)]

theorem move_perm {α : Type} [Inhabited α] (data : List α) (s t : Nat)
    (hs : s < data.length) (ht : t < data.length) :
    (move data s t).Perm data := by
  have hlen : t ≤ (data.eraseIdx s).length := by
    rw [List.length_eraseIdx_of_lt hs]; omega
  have hs' : s ≤ (data.eraseIdx s).length := by
    rw [List.length_eraseIdx_of_lt hs]; omega
  rw [move_eq_insertIdx data s t hs ht]
  refine (List.perm_insertIdx _ _ hlen).trans ?_
  have h := List.perm_insertIdx (data[s]) (data.eraseIdx s) hs'
  rw [insertIdx_eraseIdx_self data s hs] at h
  exact h.symm

theorem move_move {α : Type} [Inhabited α] (data : List α) (s t : Nat)
    (hs : s < data.length) (ht : t < data.length) :
    move (move data s t) t s = data := by
  have hl := length_move data s t hs ht
  have hget : (move data s t)[t]? = data[s]? := by
    rw [getElem?_move data s t t hs ht]; simp
  have ht' : t < (move data s t).length := by omega
  have hs' : s < (move data s t).length := by omega
  rw [move_eq_insertIdx (move data s t) t s ht' hs']
  have hx : (move data s t)[t] = data[s] := by
    rw [List.getElem?_eq_getElem ht', List.getElem?_eq_getElem hs] at hget
    exact Option.some.inj hget
  rw [hx]
  conv_lhs => rw [move_eq_insertIdx data s t hs ht, List.eraseIdx_insertIdx]
  exact insertIdx_eraseIdx_self data s hs

/-! ## Lemmas on `findIndex` and `moveLabels` -/

theorem matchesHeaderLabel_iff (label : String) (column : Column) :
    matchesHeaderLabel label column = true ↔ headerLabel column = some label := by
  unfold matchesHeaderLabel headerLabel
  cases column.header <;> simp

theorem baseFindIndex_eq {α : Type} (p : α → Bool) :
    ∀ (l : List α) (i : Nat),
      baseFindIndex p l i =
        if l.findIdx p < l.length then ((i + l.findIdx p : Nat) : Int) else -1
  | [], i => by simp [baseFindIndex]
  | x :: xs, i => by
      rw [baseFindIndex, baseFindIndex_eq p xs (i + 1), List.findIdx_cons]
      cases hx : p x
      · simp only [Bool.false_eq_true, if_false, cond_false, List.length_cons,
          Nat.add_lt_add_iff_right]
        split_ifs
        · congr 1; omega
        · rfl
      · simp

theorem mem_map_headerLabel_iff (columns : List Column) (label : String) :
    some label ∈ columns.map headerLabel ↔
      ∃ c ∈ columns, matchesHeaderLabel label c = true := by
  simp only [List.mem_map, matchesHeaderLabel_iff]

theorem findIdx_lt_of_mem (columns : List Column) (label : String)
    (h : some label ∈ columns.map headerLabel) :
    columns.findIdx (matchesHeaderLabel label) < columns.length :=
  List.findIdx_lt_length_of_exists ((mem_map_headerLabel_iff columns label).1 h)

theorem findIndex_of_mem (columns : List Column) (label : String)
    (h : some label ∈ columns.map headerLabel) :
    findIndex columns label = ((columns.findIdx (matchesHeaderLabel label) : Nat) : Int) := by
  unfold findIndex
  rw [baseFindIndex_eq, if_pos (findIdx_lt_of_mem columns label h)]
  simp

theorem findIndex_of_not_mem (columns : List Column) (label : String)
    (h : some label ∉ columns.map headerLabel) :
    findIndex columns label = -1 := by
  unfold findIndex
  rw [baseFindIndex_eq, if_neg]
  intro hlt
  apply h
  rw [mem_map_headerLabel_iff]
  exact List.findIdx_lt_length.1 hlt

theorem moveLabels_of_mem (columns : List Column) (labels : MoveRequest)
    (hs : some labels.sourceLabel ∈ columns.map headerLabel)
    (ht : some labels.targetLabel ∈ columns.map headerLabel) :
    moveLabels columns labels =
      some
        { sourceIndex := columns.findIdx (matchesHeaderLabel labels.sourceLabel)
          targetIndex := columns.findIdx (matchesHeaderLabel labels.targetLabel)
          columns :=
            move columns (columns.findIdx (matchesHeaderLabel labels.sourceLabel))
              (columns.findIdx (matchesHeaderLabel labels.targetLabel)) } := by
  unfold moveLabels
  simp only [findIndex_of_mem columns _ hs, findIndex_of_mem columns _ ht]
  simp

theorem moveLabels_of_not_mem (columns : List Column) (labels : MoveRequest)
    (h : some labels.sourceLabel ∉ columns.map headerLabel ∨
      some labels.targetLabel ∉ columns.map headerLabel) :
    moveLabels columns labels = none := by
  unfold moveLabels
  by_cases hs : some labels.sourceLabel ∈ columns.map headerLabel
  · have ht := h.resolve_left (not_not.2 hs)
    simp only [findIndex_of_mem columns _ hs, findIndex_of_not_mem columns _ ht]
    simp
  · simp only [findIndex_of_not_mem columns _ hs]
    simp

theorem isFirstMatch_findIdx (columns : List Column) (label : String)
    (h : some label ∈ columns.map headerLabel) :
    IsFirstMatch columns label (columns.findIdx (matchesHeaderLabel label)) := by
  have hlt := findIdx_lt_of_mem columns label h
  constructor
  · refine ⟨columns[columns.findIdx (matchesHeaderLabel label)], ?_, ?_⟩
    · exact List.getElem?_eq_getElem hlt
    · rw [← matchesHeaderLabel_iff]
      exact List.findIdx_getElem
  · intro j hj c hc hlab
    have hjl : j < columns.length := by omega
    rw [List.getElem?_eq_getElem hjl] at hc
    have hne := List.not_of_lt_findIdx hj
    rw [Option.some.inj hc, (matchesHeaderLabel_iff label c).2 hlab] at hne
    exact absurd hne (by decide)

theorem moveLabels_eq_some_mem (columns : List Column) (labels : MoveRequest)
    (moved : MovedColumns) (h : moveLabels columns labels = some moved) :
    some labels.sourceLabel ∈ columns.map headerLabel ∧
      some labels.targetLabel ∈ columns.map headerLabel := by
  by_contra hcon
  have hor : some labels.sourceLabel ∉ columns.map headerLabel ∨
      some labels.targetLabel ∉ columns.map headerLabel := by
    by_cases hs : some labels.sourceLabel ∈ columns.map headerLabel
    · right; intro ht; exact hcon ⟨hs, ht⟩
    · left; exact hs
  rw [moveLabels_of_not_mem columns labels hor] at h
  exact Option.noConfusion h

/-! ## Lemmas on `onMove` -/

theorem writeClassName_width (heap : PropsHeap) (ref : Ref) (value : String) (r : Ref) :
    (writeClassName heap ref value r).map Props.width = (heap r).map Props.width := by
  unfold writeClassName
  split_ifs
  · cases heap r <;> rfl
  · rfl

theorem writeClassName_isSome (heap : PropsHeap) (ref : Ref) (value : String) (r : Ref) :
    (writeClassName heap ref value r).isSome = (heap r).isSome := by
  unfold writeClassName
  split_ifs
  · cases heap r <;> rfl
  · rfl

theorem writeClassName_of_ne (heap : PropsHeap) (ref : Ref) (value : String) (r : Ref)
    (h : r ≠ ref) : writeClassName heap ref value r = heap r := by
  unfold writeClassName
  rw [if_neg h]

theorem readClassName_isSome_iff (heap : PropsHeap) (column : Column) :
    (readClassName heap column).isSome = true ↔
      ∃ ref props, column.props = some ref ∧ heap ref = some props := by
  unfold readClassName
  cases hp : column.props with
  | none => simp
  | some ref =>
    cases hh : heap ref with
    | none => simp [hh]
    | some props => simp [hh]

theorem onMove_of_moved (state : EasyTableState) (labels : MoveRequest) (moved : MovedColumns)
    (source target : Column) (sp tp : Ref) (sObj tObj : Props)
    (hm : moveLabels state.columns labels = some moved)
    (h1 : moved.columns[moved.sourceIndex]? = some source)
    (h2 : moved.columns[moved.targetIndex]? = some target)
    (h3 : source.props = some sp) (h4 : target.props = some tp)
    (h5 : state.heap sp = some sObj) (h6 : state.heap tp = some tObj) :
    onMove state labels =
      some
        { columns := moved.columns
          heap :=
            writeClassName (writeClassName state.heap sp tObj.className) tp sObj.className } := by
  simp [onMove, hm, h1, h2, h3, h4, h5, h6, readClassName]

theorem props_of_allocated (state : EasyTableState) (hwf : propsAllocated state = true)
    (data : List Column) (hperm : data.Perm state.columns) (i : Nat) (hi : i < data.length) :
    ∃ column ref props,
      data[i]? = some column ∧ column.props = some ref ∧ state.heap ref = some props := by
  have hmem : data[i] ∈ state.columns := hperm.mem_iff.1 (List.getElem_mem hi)
  have hall := List.all_eq_true.1 hwf _ hmem
  obtain ⟨ref, props, h1, h2⟩ := (readClassName_isSome_iff state.heap _).1 hall
  exact ⟨data[i], ref, props, List.getElem?_eq_getElem hi, h1, h2⟩

theorem onMove_valid (state : EasyTableState) (labels : MoveRequest)
    (hwf : propsAllocated state = true)
    (hs : some labels.sourceLabel ∈ state.columns.map headerLabel)
    (ht : some labels.targetLabel ∈ state.columns.map headerLabel) :
    ∃ (moved : MovedColumns) (source target : Column) (sp tp : Ref) (sObj tObj : Props),
      moveLabels state.columns labels = some moved ∧
      moved.columns.Perm state.columns ∧
      moved.columns[moved.sourceIndex]? = some source ∧
      moved.columns[moved.targetIndex]? = some target ∧
      source.props = some sp ∧ target.props = some tp ∧
      state.heap sp = some sObj ∧ state.heap tp = some tObj ∧
      onMove state labels =
        some
          { columns := moved.columns
            heap :=
              writeClassName (writeClassName state.heap sp tObj.className) tp
                sObj.className } := by
  have hm := moveLabels_of_mem state.columns labels hs ht
  have hsl := findIdx_lt_of_mem state.columns _ hs
  have htl := findIdx_lt_of_mem state.columns _ ht
  have hperm := move_perm state.columns _ _ hsl htl
  have hlen := length_move state.columns _ _ hsl htl
  obtain ⟨source, sp, sObj, a1, a2, a3⟩ :=
    props_of_allocated state hwf _ hperm _ (by rw [hlen]; exact hsl)
  obtain ⟨target, tp, tObj, b1, b2, b3⟩ :=
    props_of_allocated state hwf _ hperm _ (by rw [hlen]; exact htl)
  exact ⟨_, source, target, sp, tp, sObj, tObj, hm, hperm, a1, b1, a2, b2, a3, b3,
    onMove_of_moved state labels _ source target sp tp sObj tObj hm a1 b1 a2 b2 a3 b3⟩

theorem getElem?_move_adjacent {α : Type} [Inhabited α] (data : List α) (s t i : Nat)
    (hs : s < data.length) (ht : t < data.length) (h1 : s ≤ t + 1) (h2 : t ≤ s + 1) :
    (move data s t)[i]? =
      if i = t then data[s]? else if i = s then data[t]? else data[i]? := by
  rw [getElem?_move data s t i hs ht]
  split_ifs <;> first | rfl | omega | (congr 1; omega)

theorem props_ne_of_nodup (columns : List Column)
    (hnodup : (columns.map Column.props).Nodup) (i j : Nat) (a b : Column)
    (ha : columns[i]? = some a) (hb : columns[j]? = some b) (hij : i ≠ j) :
    a.props ≠ b.props := by
  intro h
  apply hij
  have h1 : (columns.map Column.props)[i]? = some a.props := by simp [ha]
  have h2 : (columns.map Column.props)[j]? = some a.props := by simp [hb, h]
  exact List.getElem?_inj (by
    rcases List.getElem?_eq_some.1 h1 with ⟨hi, _⟩
    exact hi) hnodup (h1.trans h2.symm)

theorem onMove_adjacent_retains_classNames (state : EasyTableState) (labels : MoveRequest)
    (hwf : propsAllocated state = true)
    (hnodup : (state.columns.map Column.props).Nodup)
    (moved : MovedColumns) (hm : moveLabels state.columns labels = some moved)
    (h1 : moved.sourceIndex ≤ moved.targetIndex + 1)
    (h2 : moved.targetIndex ≤ moved.sourceIndex + 1) :
    ∃ next, onMove state labels = some next ∧
      classNamesOf next.heap next.columns = classNamesOf state.heap state.columns := by
  obtain ⟨hs, ht⟩ := moveLabels_eq_some_mem state.columns labels moved hm
  have hm2 := moveLabels_of_mem state.columns labels hs ht
  rw [hm] at hm2
  cases Option.some.inj hm2
  have hsl := findIdx_lt_of_mem state.columns _ hs
  have htl := findIdx_lt_of_mem state.columns _ ht
  simp only at h1 h2
  generalize hsdef : state.columns.findIdx (matchesHeaderLabel labels.sourceLabel) = s at *
  generalize htdef : state.columns.findIdx (matchesHeaderLabel labels.targetLabel) = t at *
  obtain ⟨A, ra, pa, a1, a2, a3⟩ :=
    props_of_allocated state hwf state.columns (List.Perm.refl _) s hsl
  obtain ⟨B, rb, pb, b1, b2, b3⟩ :=
    props_of_allocated state hwf state.columns (List.Perm.refl _) t htl
  have hsrc : (move state.columns s t)[s]? = some B := by
    rw [getElem?_move_adjacent _ s t s hsl htl h1 h2, ← b1]
    split_ifs with h h'
    · rw [h]
    · rfl
    · exact absurd rfl h'
  have htgt : (move state.columns s t)[t]? = some A := by
    rw [getElem?_move_adjacent _ s t t hsl htl h1 h2, ← a1]; simp
  refine ⟨_, onMove_of_moved state labels _ B A rb ra pb pa hm hsrc htgt b2 a2 b3 a3, ?_⟩
  apply List.ext_getElem?
  intro i
  simp only [classNamesOf, List.getElem?_map]
  rw [getElem?_move_adjacent _ s t i hsl htl h1 h2]
  by_cases hit : i = t
  · rw [if_pos hit, hit, a1, b1]
    simp only [Option.map_some', readClassName, a2, b2, b3, writeClassName, if_true]
    split_ifs <;> simp [a3, b3]
  · rw [if_neg hit]
    by_cases his : i = s
    · have hne : rb ≠ ra := by
        intro e
        apply props_ne_of_nodup state.columns hnodup s t A B a1 b1 (by omega)
        rw [a2, b2, e]
      rw [if_pos his, his, a1, b1]
      simp only [Option.map_some', readClassName, a2, b2, a3, writeClassName, if_true,
        if_neg hne]
      simp [b3]
    · rw [if_neg his]
      cases hC : state.columns[i]? with
      | none => rfl
      | some C =>
        have n1 : C.props ≠ some ra := by
          rw [← a2]; exact props_ne_of_nodup state.columns hnodup i s C A hC a1 his
        have n2 : C.props ≠ some rb := by
          rw [← b2]; exact props_ne_of_nodup state.columns hnodup i t C B hC b1 hit
        simp only [Option.map_some', readClassName]
        cases hp : C.props with
        | none => rfl
        | some rc =>
          have e1 : rc ≠ ra := fun e => n1 (by rw [hp, e])
          have e2 : rc ≠ rb := fun e => n2 (by rw [hp, e])
          simp only
          rw [writeClassName_of_ne _ _ _ _ e1, writeClassName_of_ne _ _ _ _ e2]

theorem onMove_cases (state : EasyTableState) (labels : MoveRequest) (next : EasyTableState)
    (h : onMove state labels = some next) :
    (moveLabels state.columns labels = none ∧ next = state) ∨
    ∃ (moved : MovedColumns) (source target : Column) (sp tp : Ref) (sObj tObj : Props),
      moveLabels state.columns labels = some moved ∧
      moved.columns[moved.sourceIndex]? = some source ∧
      moved.columns[moved.targetIndex]? = some target ∧
      source.props = some sp ∧ target.props = some tp ∧
      state.heap sp = some sObj ∧ state.heap tp = some tObj ∧
      next =
        { columns := moved.columns
          heap :=
            writeClassName (writeClassName state.heap sp tObj.className) tp
              sObj.className } := by
  cases hm : moveLabels state.columns labels with
  | none =>
    left
    simp only [onMove, hm] at h
    exact ⟨rfl, (Option.some.inj h).symm⟩
  | some moved =>
    right
    cases h1 : moved.columns[moved.sourceIndex]? with
    | none => simp [onMove, hm, h1] at h
    | some source =>
      cases h2 : moved.columns[moved.targetIndex]? with
      | none => simp [onMove, hm, h1, h2] at h
      | some target =>
        cases h3 : source.props with
        | none => simp [onMove, hm, h1, h2, h3] at h
        | some sp =>
          cases h4 : target.props with
          | none => simp [onMove, hm, h1, h2, h3, h4] at h
          | some tp =>
            cases h5 : state.heap sp with
            | none => simp [onMove, hm, h1, h2, h3, h4, h5, readClassName] at h
            | some sObj =>
              cases h6 : state.heap tp with
              | none => simp [onMove, hm, h1, h2, h3, h4, h5, h6, readClassName] at h
              | some tObj =>
                rw [onMove_of_moved state labels moved source target sp tp sObj tObj hm h1 h2
                  h3 h4 h5 h6] at h
                exact ⟨moved, source, target, sp, tp, sObj, tObj, rfl, h1, h2, h3, h4, h5,
                  h6, (Option.some.inj h).symm⟩

theorem moveLabels_eq_some_perm (columns : List Column) (labels : MoveRequest)
    (moved : MovedColumns) (h : moveLabels columns labels = some moved) :
    moved.columns.Perm columns := by
  obtain ⟨hs, ht⟩ := moveLabels_eq_some_mem columns labels moved h
  have h2 := moveLabels_of_mem columns labels hs ht
  rw [h] at h2
  cases Option.some.inj h2
  exact move_perm columns _ _ (findIdx_lt_of_mem columns _ hs) (findIdx_lt_of_mem columns _ ht)

theorem onMove_isSome_iff (state : EasyTableState) (labels : MoveRequest) :
    (onMove state labels).isSome = true ↔
      (moveLabels state.columns labels = none ∨
        ∃ moved, moveLabels state.columns labels = some moved ∧
          MovedPropsPresent state.heap moved) := by
  constructor
  · intro h
    obtain ⟨next, hn⟩ := Option.isSome_iff_exists.1 h
    rcases onMove_cases state labels next hn with ⟨hm, _⟩ |
      ⟨moved, source, target, sp, tp, sObj, tObj, hm, h1, h2, h3, h4, h5, h6, _⟩
    · exact Or.inl hm
    · refine Or.inr ⟨moved, hm, source, target, h1, h2, ?_, ?_⟩
      · exact (readClassName_isSome_iff _ _).2 ⟨sp, sObj, h3, h5⟩
      · exact (readClassName_isSome_iff _ _).2 ⟨tp, tObj, h4, h6⟩
  · rintro (hm | ⟨moved, hm, source, target, h1, h2, hs, ht⟩)
    · simp [onMove, hm]
    · obtain ⟨sp, sObj, h3, h5⟩ := (readClassName_isSome_iff _ _).1 hs
      obtain ⟨tp, tObj, h4, h6⟩ := (readClassName_isSome_iff _ _).1 ht
      rw [onMove_of_moved state labels moved source target sp tp sObj tObj hm h1 h2 h3 h4 h5 h6]
      rfl

/-- The adjacent case at the sample state: moving a onto b keeps the class names of the
positions. -/
theorem onMove_adjacent_retains_classNames_sample :
    ∃ next, onMove sampleState ⟨"a", "b"⟩ = some next ∧
      classNamesOf next.heap next.columns =
        classNamesOf sampleState.heap sampleState.columns :=
  onMove_adjacent_retains_classNames sampleState ⟨"a", "b"⟩ (by decide) (by decide)
    { sourceIndex := 0, targetIndex := 1, columns := move sampleColumns 0 1 } (by decide)
    (by decide) (by decide)

/-! ## The claims -/

/-- C1: `moveLabels` returns null exactly when the source label or the target label is the
header label of no column; when both labels occur it returns a result whose column
sequence is the moved input. -/
theorem C1_moveLabels_null_iff_label_missing (columns : List Column) (labels : MoveRequest) :
    (moveLabels columns labels = none ↔
      (some labels.sourceLabel ∉ columns.map headerLabel ∨
        some labels.targetLabel ∉ columns.map headerLabel)) ∧
    (some labels.sourceLabel ∈ columns.map headerLabel ∧
        some labels.targetLabel ∈ columns.map headerLabel →
      ∃ moved, moveLabels columns labels = some moved ∧
        moved.columns = move columns moved.sourceIndex moved.targetIndex) := by
  constructor
  · constructor
    · intro hnone
      by_contra hcon
      have hs : some labels.sourceLabel ∈ columns.map headerLabel := by
        by_contra h; exact hcon (Or.inl h)
      have ht : some labels.targetLabel ∈ columns.map headerLabel := by
        by_contra h; exact hcon (Or.inr h)
      rw [moveLabels_of_mem columns labels hs ht] at hnone
      exact Option.noConfusion hnone
    · exact moveLabels_of_not_mem columns labels
  · rintro ⟨hs, ht⟩
    exact ⟨_, moveLabels_of_mem columns labels hs ht, rfl⟩

/-- C1 at the sample columns: both labels occur, a result is returned; and a request
with a missing label returns null. -/
theorem C1_moveLabels_null_iff_label_missing_witness :
    ((some "a" ∈ sampleColumns.map headerLabel ∧ some "c" ∈ sampleColumns.map headerLabel) ∧
      ∃ moved, moveLabels sampleColumns ⟨"a", "c"⟩ = some moved ∧
        moved.columns = move sampleColumns moved.sourceIndex moved.targetIndex) ∧
    moveLabels sampleColumns ⟨"missing", "a"⟩ = none :=
  ⟨⟨⟨by decide, by decide⟩,
      (C1_moveLabels_null_iff_label_missing sampleColumns ⟨"a", "c"⟩).2
        ⟨by decide, by decide⟩⟩,
    (C1_moveLabels_null_iff_label_missing sampleColumns ⟨"missing", "a"⟩).1.2
      (Or.inl (by decide))⟩

/-- C2: for valid indices s and t, `move data s t` has the length of `data`, holds
`data[s]` at index t, keeps every element outside the closed range between s and t,
shifts the elements of a forward move back by one and those of a backward move forward
by one; the three examples of the code comment are instances. -/
theorem C2_move_displacement {α : Type} [Inhabited α] (data : List α) (s t : Nat)
    (hs : s < data.length) (ht : t < data.length) :
    (move data s t).length = data.length ∧
    (move data s t)[t]? = data[s]? ∧
    (∀ i, i < min s t ∨ max s t < i → (move data s t)[i]? = data[i]?) ∧
    (s < t → ∀ i, s ≤ i → i < t → (move data s t)[i]? = data[i + 1]?) ∧
    (t < s → ∀ i, t < i → i ≤ s → (move data s t)[i]? = data[i - 1]?) ∧
    move letters 1 3 = ["a", "c", "d", "b", "e"] ∧
    move letters 3 0 = ["d", "a", "b", "c", "e"] ∧
    move letters 0 3 = ["b", "c", "d", "a", "e"] := by
  refine ⟨length_move data s t hs ht, ?_, ?_, ?_, ?_, by decide, by decide, by decide⟩
  · rw [getElem?_move data s t t hs ht]; simp
  · intro i hi
    rw [getElem?_move data s t i hs ht]
    rcases hi with hi | hi
    · have h1 : i < s := lt_of_lt_of_le hi (min_le_left s t)
      have h2 : i < t := lt_of_lt_of_le hi (min_le_right s t)
      rw [if_neg (by omega), if_pos h2, if_pos h1]
    · have h1 : s < i := lt_of_le_of_lt (le_max_left s t) hi
      have h2 : t < i := lt_of_le_of_lt (le_max_right s t) hi
      rw [if_neg (by omega), if_neg (by omega), if_neg (by omega)]
  · intro _ i h1 h2
    rw [getElem?_move data s t i hs ht, if_neg (by omega), if_pos h2, if_neg (by omega)]
  · intro _ i h1 h2
    rw [getElem?_move data s t i hs ht, if_neg (by omega), if_neg (by omega), if_pos h2]

/-- C2 at the letters a to e with s = 1 and t = 3. -/
theorem C2_move_displacement_witness :
    (1 < letters.length ∧ 3 < letters.length) ∧
    (move letters 1 3).length = letters.length ∧
    (move letters 1 3)[3]? = letters[1]? ∧
    (∀ i, i < min 1 3 ∨ max 1 3 < i → (move letters 1 3)[i]? = letters[i]?) ∧
    (1 < 3 → ∀ i, 1 ≤ i → i < 3 → (move letters 1 3)[i]? = letters[i + 1]?) ∧
    (3 < 1 → ∀ i, 3 < i → i ≤ 1 → (move letters 1 3)[i]? = letters[i - 1]?) ∧
    move letters 1 3 = ["a", "c", "d", "b", "e"] ∧
    move letters 3 0 = ["d", "a", "b", "c", "e"] ∧
    move letters 0 3 = ["b", "c", "d", "a", "e"] :=
  ⟨⟨by decide, by decide⟩, C2_move_displacement letters 1 3 (by decide) (by decide)⟩

/-- C3: for a valid move, deleting the moved column from position targetIndex of the
result of `moveLabels` gives the input with the column at sourceIndex deleted, so the
other columns keep their mutual order; the column found at targetIndex is the moved one. -/
theorem C3_moveLabels_keeps_relative_order (columns : List Column) (labels : MoveRequest)
    (hs : some labels.sourceLabel ∈ columns.map headerLabel)
    (ht : some labels.targetLabel ∈ columns.map headerLabel) :
    ∃ moved, moveLabels columns labels = some moved ∧
      moved.columns[moved.targetIndex]? = columns[moved.sourceIndex]? ∧
      moved.columns.eraseIdx moved.targetIndex = columns.eraseIdx moved.sourceIndex := by
  have hsl := findIdx_lt_of_mem columns _ hs
  have htl := findIdx_lt_of_mem columns _ ht
  refine ⟨_, moveLabels_of_mem columns labels hs ht, ?_, ?_⟩
  · show (move columns _ _)[_]? = columns[_]?
    rw [getElem?_move columns _ _ _ hsl htl]; simp
  · show (move columns _ _).eraseIdx _ = columns.eraseIdx _
    rw [move_eq_insertIdx columns _ _ hsl htl, List.eraseIdx_insertIdx]

/-- C3 at the sample columns, moving a onto c. -/
theorem C3_moveLabels_keeps_relative_order_witness :
    (some "a" ∈ sampleColumns.map headerLabel ∧ some "c" ∈ sampleColumns.map headerLabel) ∧
    ∃ moved, moveLabels sampleColumns ⟨"a", "c"⟩ = some moved ∧
      moved.columns[moved.targetIndex]? = sampleColumns[moved.sourceIndex]? ∧
      moved.columns.eraseIdx moved.targetIndex = sampleColumns.eraseIdx moved.sourceIndex :=
  ⟨⟨by decide, by decide⟩,
    C3_moveLabels_keeps_relative_order sampleColumns ⟨"a", "c"⟩ (by decide) (by decide)⟩

/-- C4: for a valid move, the column sequence returned by `moveLabels` is a permutation
of the input: the same multiset of columns and the same length. -/
theorem C4_moveLabels_permutation (columns : List Column) (labels : MoveRequest)
    (hs : some labels.sourceLabel ∈ columns.map headerLabel)
    (ht : some labels.targetLabel ∈ columns.map headerLabel) :
    ∃ moved, moveLabels columns labels = some moved ∧
      moved.columns.Perm columns ∧
      (moved.columns : Multiset Column) = (columns : Multiset Column) ∧
      moved.columns.length = columns.length := by
  have hsl := findIdx_lt_of_mem columns _ hs
  have htl := findIdx_lt_of_mem columns _ ht
  have hperm := move_perm columns _ _ hsl htl
  exact ⟨_, moveLabels_of_mem columns labels hs ht, hperm, Multiset.coe_eq_coe.2 hperm,
    hperm.length_eq⟩

/-- C4 at the columns with duplicate labels, moving a onto b. -/
theorem C4_moveLabels_permutation_witness :
    (some "a" ∈ duplicateColumns.map headerLabel ∧
      some "b" ∈ duplicateColumns.map headerLabel) ∧
    ∃ moved, moveLabels duplicateColumns ⟨"a", "b"⟩ = some moved ∧
      moved.columns.Perm duplicateColumns ∧
      (moved.columns : Multiset Column) = (duplicateColumns : Multiset Column) ∧
      moved.columns.length = duplicateColumns.length :=
  ⟨⟨by decide, by decide⟩,
    C4_moveLabels_permutation duplicateColumns ⟨"a", "b"⟩ (by decide) (by decide)⟩

/-- C5: reorder identity. Moving a label that occurs onto itself returns the columns
unchanged, and `move data i i` is `data` for every valid index i. -/
theorem C5_reorder_identity {α : Type} [Inhabited α] (columns : List Column) (label : String)
    (data : List α) (i : Nat)
    (hl : some label ∈ columns.map headerLabel) (hi : i < data.length) :
    (∃ moved, moveLabels columns ⟨label, label⟩ = some moved ∧ moved.columns = columns) ∧
    move data i i = data := by
  have key : ∀ {β : Type} [Inhabited β] (l : List β) (k : Nat), k < l.length →
      move l k k = l := by
    intro β _ l k hk
    rw [move_eq_insertIdx l k k hk hk]
    exact insertIdx_eraseIdx_self l k hk
  refine ⟨⟨_, moveLabels_of_mem columns ⟨label, label⟩ hl hl, ?_⟩, key data i hi⟩
  exact key columns _ (findIdx_lt_of_mem columns label hl)

/-- C5 at the sample columns with the label b, and at the letters with index 2. -/
theorem C5_reorder_identity_witness :
    (some "b" ∈ sampleColumns.map headerLabel ∧ 2 < letters.length) ∧
    (∃ moved, moveLabels sampleColumns ⟨"b", "b"⟩ = some moved ∧
      moved.columns = sampleColumns) ∧
    move letters 2 2 = letters :=
  ⟨⟨by decide, by decide⟩,
    C5_reorder_identity sampleColumns "b" letters 2 (by decide) (by decide)⟩

/-- C6: first match wins. For a move whose labels both occur, the sourceIndex and the
targetIndex computed by `moveLabels` are the smallest indices whose header label is
sourceLabel and targetLabel, and the column moved to targetIndex is the one at that
first sourceIndex. -/
theorem C6_first_match_wins (columns : List Column) (labels : MoveRequest)
    (hs : some labels.sourceLabel ∈ columns.map headerLabel)
    (ht : some labels.targetLabel ∈ columns.map headerLabel) :
    ∃ moved, moveLabels columns labels = some moved ∧
      IsFirstMatch columns labels.sourceLabel moved.sourceIndex ∧
      IsFirstMatch columns labels.targetLabel moved.targetIndex ∧
      moved.columns[moved.targetIndex]? = columns[moved.sourceIndex]? := by
  have hsl := findIdx_lt_of_mem columns _ hs
  have htl := findIdx_lt_of_mem columns _ ht
  refine ⟨_, moveLabels_of_mem columns labels hs ht, isFirstMatch_findIdx columns _ hs,
    isFirstMatch_findIdx columns _ ht, ?_⟩
  show (move columns _ _)[_]? = columns[_]?
  rw [getElem?_move columns _ _ _ hsl htl]; simp

/-- C6 at the columns b, a, b, a: moving a onto b takes the first a to the first b. -/
theorem C6_first_match_wins_witness :
    (some "a" ∈ duplicateColumns.map headerLabel ∧
      some "b" ∈ duplicateColumns.map headerLabel) ∧
    ∃ moved, moveLabels duplicateColumns ⟨"a", "b"⟩ = some moved ∧
      IsFirstMatch duplicateColumns "a" moved.sourceIndex ∧
      IsFirstMatch duplicateColumns "b" moved.targetIndex ∧
      moved.columns[moved.targetIndex]? = duplicateColumns[moved.sourceIndex]? :=
  ⟨⟨by decide, by decide⟩,
    C6_first_match_wins duplicateColumns ⟨"a", "b"⟩ (by decide) (by decide)⟩

/-- C7 does not hold as stated: after `onMove` moves a onto b in the sample state, the
column descriptors of the previous columns array no longer read the class names they had:
the first two have exchanged them in place. -/
theorem C7_onMove_mutates_previous_columns :
    propsAllocated sampleState = true ∧
    classNamesOf sampleState.heap sampleState.columns =
      [some "column-0", some "column-1", some "column-2"] ∧
    (onMove sampleState ⟨"a", "b"⟩).map
        (fun state => classNamesOf state.heap sampleState.columns) =
      some [some "column-1", some "column-0", some "column-2"] ∧
    (onMove sampleState ⟨"a", "b"⟩).map
        (fun state => classNamesOf state.heap sampleState.columns) ≠
      some (classNamesOf sampleState.heap sampleState.columns) := by
  decide

/-- C7 as amended: `onMove` completes exactly when no label pair is found or the two
columns it reads at sourceIndex and targetIndex of the moved sequence have a props object;
whenever it completes, the new column array is a permutation of the previous one (the
result of `moveLabels`, or the same array and heap when a label is missing), and nothing is
written but the className field of props objects: every props object keeps its width and
stays allocated, and every props object other than those of the two columns at sourceIndex
and targetIndex of the moved sequence is exactly as before. -/
theorem C7_onMove_writes_only_two_classNames (state : EasyTableState) (labels : MoveRequest) :
    ((onMove state labels).isSome = true ↔
      (moveLabels state.columns labels = none ∨
        ∃ moved, moveLabels state.columns labels = some moved ∧
          MovedPropsPresent state.heap moved)) ∧
    ∀ next, onMove state labels = some next →
      next.columns.Perm state.columns ∧
      (moveLabels state.columns labels = none →
        next.columns = state.columns ∧ next.heap = state.heap) ∧
      (∀ moved, moveLabels state.columns labels = some moved →
        next.columns = moved.columns ∧
        ∀ ref,
          (moved.columns[moved.sourceIndex]?).bind Column.props ≠ some ref →
          (moved.columns[moved.targetIndex]?).bind Column.props ≠ some ref →
          next.heap ref = state.heap ref) ∧
      (∀ ref, (next.heap ref).map Props.width = (state.heap ref).map Props.width) ∧
      (∀ ref, (next.heap ref).isSome = (state.heap ref).isSome) := by
  refine ⟨onMove_isSome_iff state labels, ?_⟩
  intro next hn
  rcases onMove_cases state labels next hn with ⟨hm, rfl⟩ |
    ⟨moved, source, target, sp, tp, sObj, tObj, hm, h1, h2, h3, h4, _, _, rfl⟩
  · refine ⟨List.Perm.refl _, fun _ => ⟨rfl, rfl⟩, ?_, fun _ => rfl, fun _ => rfl⟩
    intro moved h
    rw [hm] at h
    exact Option.noConfusion h
  · refine ⟨moveLabels_eq_some_perm state.columns labels moved hm, ?_, ?_, ?_, ?_⟩
    · intro h
      rw [hm] at h
      exact Option.noConfusion h
    · intro moved2 h
      rw [hm] at h
      cases Option.some.inj h
      refine ⟨rfl, ?_⟩
      intro ref hns hnt
      have e1 : ref ≠ sp := by
        intro e; apply hns; rw [h1, e]; exact h3
      have e2 : ref ≠ tp := by
        intro e; apply hnt; rw [h2, e]; exact h4
      show writeClassName (writeClassName state.heap sp _) tp _ ref = state.heap ref
      rw [writeClassName_of_ne _ _ _ _ e2, writeClassName_of_ne _ _ _ _ e1]
    · intro ref
      show (writeClassName (writeClassName state.heap sp _) tp _ ref).map Props.width = _
      rw [writeClassName_width, writeClassName_width]
    · intro ref
      show (writeClassName (writeClassName state.heap sp _) tp _ ref).isSome = _
      rw [writeClassName_isSome, writeClassName_isSome]

/-- C7 as amended, at a state whose third column has no props object, with the request
to move a onto b: `onMove` completes and the frame holds for the state it returns. -/
theorem C7_onMove_writes_only_two_classNames_witness :
    propsAllocated mixedState = false ∧
    ∃ next, onMove mixedState ⟨"a", "b"⟩ = some next ∧
      next.columns.Perm mixedState.columns ∧
      (moveLabels mixedState.columns ⟨"a", "b"⟩ = none →
        next.columns = mixedState.columns ∧ next.heap = mixedState.heap) ∧
      (∀ moved, moveLabels mixedState.columns ⟨"a", "b"⟩ = some moved →
        next.columns = moved.columns ∧
        ∀ ref,
          (moved.columns[moved.sourceIndex]?).bind Column.props ≠ some ref →
          (moved.columns[moved.targetIndex]?).bind Column.props ≠ some ref →
          next.heap ref = mixedState.heap ref) ∧
      (∀ ref, (next.heap ref).map Props.width = (mixedState.heap ref).map Props.width) ∧
      (∀ ref, (next.heap ref).isSome = (mixedState.heap ref).isSome) :=
  ⟨by decide,
    (Option.isSome_iff_exists.1
        (show (onMove mixedState ⟨"a", "b"⟩).isSome = true by decide)).elim
      fun next hn =>
        ⟨next, hn,
          (C7_onMove_writes_only_two_classNames mixedState ⟨"a", "b"⟩).2 next hn⟩⟩

/-- C8: pipeline order. The rows computed in `EasyTable.render` are
sorter (highlighter (search (resolve rows))), and the demo table applies
search.multipleColumns before sort.sorter. -/
theorem C8_pipeline_order {Row Query Sorting : Type} (T : Transforms Row Query Sorting)
    (columns : List Column) (sortingColumns : Sorting) (query : Query) (rows : List Row) :
    renderRows T columns sortingColumns query rows =
        T.sorter columns sortingColumns
          (T.highlighter columns query
            (T.multipleColumns columns query (T.resolve columns rows))) ∧
    sortAndSearchRows T columns sortingColumns query rows =
        T.sorter columns sortingColumns (T.multipleColumns columns query rows) :=
  ⟨rfl, rfl⟩

/-- C9 at a move over a distance of two: in the sample state position i carries the class
name of position i; after `onMove` moves a onto c the columns are b, c, a and positions
1 and 2 carry the class names of positions 2 and 1. -/
theorem C9_onMove_distance_two_exchanges_classNames :
    propsAllocated sampleState = true ∧
    classNamesOf sampleState.heap sampleState.columns =
      [some "column-0", some "column-1", some "column-2"] ∧
    (onMove sampleState ⟨"a", "c"⟩).map
        (fun state => (state.columns.map headerLabel, classNamesOf state.heap state.columns)) =
      some ([some "b", some "c", some "a"],
        [some "column-0", some "column-2", some "column-1"]) ∧
    (onMove sampleState ⟨"a", "c"⟩).map
        (fun state => classNamesOf state.heap state.columns) ≠
      some (classNamesOf sampleState.heap sampleState.columns) := by
  decide

/-- C10: a move is undone by the reverse move, for all valid indices s and t. -/
theorem C10_move_undone_by_reverse_move {α : Type} [Inhabited α] (data : List α) (s t : Nat)
    (hs : s < data.length) (ht : t < data.length) :
    move (move data s t) t s = data :=
  move_move data s t hs ht

/-- C10 at the letters a to e with s = 0 and t = 3. -/
theorem C10_move_undone_by_reverse_move_witness :
    (0 < letters.length ∧ 3 < letters.length) ∧ move (move letters 0 3) 3 0 = letters :=
  ⟨⟨by decide, by decide⟩,
    C10_move_undone_by_reverse_move letters 0 3 (by decide) (by decide)⟩

end Reactabular
